import Mathlib

/-!
Verification of the Theron actor-runtime core against its specification.

The development shallowly embeds the parts of the source needed by the
claims:

* `Mailbox` and its operations, from
  `Include/Theron/Detail/Mailboxes/Mailbox.h`;
* the free-block `Pool` and its operations, from the pool allocator header;
* `Framework::Parameters` and the early-return path of `Framework::Send`,
  from `Framework.h`.

`uint32_t` fields are embedded as `Nat` together with explicit modular
arithmetic (`u32inc`, `u32dec`), so that the wrap-around behaviour of the
C++ increments and decrements is preserved.  Pointers (`IMessage *`,
`Actor *`, block addresses) are embedded as natural numbers standing for
their pointer values, with `Option` used where the source uses null.
-/

/-- `2^32`, the modulus of `uint32_t` arithmetic. -/
def U32_LIMIT : Nat := 4294967296

/-- `uint32_t` increment: `++x` on a `uint32_t`, wrapping at `2^32`. -/
def u32inc (n : Nat) : Nat := (n + 1) % U32_LIMIT

/-- `uint32_t` decrement: `--x` on a `uint32_t`, wrapping below zero. -/
def u32dec (n : Nat) : Nat := (n + (U32_LIMIT - 1)) % U32_LIMIT

theorem u32inc_eq_of_lt {n : Nat} (h : n + 1 < U32_LIMIT) : u32inc n = n + 1 := by
  simp [u32inc, Nat.mod_eq_of_lt h]

theorem u32dec_eq_of_pos {n : Nat} (h1 : 1 ≤ n) (h2 : n < U32_LIMIT) :
    u32dec n = n - 1 := by
  unfold u32dec
  have hrw : n + (U32_LIMIT - 1) = (n - 1) + U32_LIMIT := by omega
  rw [hrw, Nat.add_mod_right]
  exact Nat.mod_eq_of_lt (by omega)

/--
The mailbox of `Mailbox.h`.  The `mSpinLock` member is a concurrency
primitive with no sequential content and is omitted; messages are
identified by their pointer values (`Nat`), with `none` for a null
`Actor *`.  The message queue `mQueue` has type `Queue<IMessage>`, whose
implementation (from `WorkQueue.h`) is not among the provided sources.
Modelled from the spec: the queue is `queue: FIFO<Message*>` (intrusive,
unbounded), so it is embedded as a `List Nat` whose push appends at the
tail and whose pop removes the head, returning null when empty.
-/
structure Mailbox where
  mName : String
  mQueue : List Nat
  mMessageCount : Nat
  mActor : Option Nat
  mPinCount : Nat
deriving DecidableEq

/-- The default constructor `Mailbox::Mailbox()`. -/
def Mailbox.mk0 : Mailbox :=
  { mName := "", mQueue := [], mMessageCount := 0, mActor := none, mPinCount := 0 }

/-- `Mailbox::Empty`: true iff the queue holds no messages. -/
def Mailbox.Empty (m : Mailbox) : Bool := m.mQueue.isEmpty

/-- `Mailbox::Push`: enqueue the message, then `++mMessageCount`. -/
def Mailbox.Push (m : Mailbox) (msg : Nat) : Mailbox :=
  { m with mQueue := m.mQueue ++ [msg], mMessageCount := u32inc m.mMessageCount }

/-- `Mailbox::Front`: peek at the head message without removing it. -/
def Mailbox.Front (m : Mailbox) : Option Nat := m.mQueue.head?

/-- `Mailbox::Pop`: `--mMessageCount` (performed unconditionally, before the
queue is inspected, exactly as in the source), then pop the queue, which
yields the head message or null when the queue is empty. -/
def Mailbox.Pop (m : Mailbox) : Option Nat × Mailbox :=
  let c := u32dec m.mMessageCount
  match m.mQueue with
  | [] => (none, { m with mMessageCount := c })
  | x :: rest => (some x, { m with mQueue := rest, mMessageCount := c })

/-- `Mailbox::Count`: the stored message count. -/
def Mailbox.Count (m : Mailbox) : Nat := m.mMessageCount

/-- `Mailbox::RegisterActor`: bind the actor (the source asserts
`mPinCount == 0`, `mActor == 0` and `actor != 0`; the mutation itself is
unconditional). -/
def Mailbox.RegisterActor (m : Mailbox) (actor : Nat) : Mailbox :=
  { m with mActor := some actor }

/-- `Mailbox::DeregisterActor`: clear the actor binding (the source asserts
`mPinCount == 0` and `mActor != 0`; the mutation itself is unconditional). -/
def Mailbox.DeregisterActor (m : Mailbox) : Mailbox :=
  { m with mActor := none }

/-- `Mailbox::Pin`: `++mPinCount`. -/
def Mailbox.Pin (m : Mailbox) : Mailbox :=
  { m with mPinCount := u32inc m.mPinCount }

/-- `Mailbox::Unpin`: `--mPinCount` (asserts `mPinCount > 0`). -/
def Mailbox.Unpin (m : Mailbox) : Mailbox :=
  { m with mPinCount := u32dec m.mPinCount }

/-- `Mailbox::IsPinned`: the pin count is positive. -/
def Mailbox.IsPinned (m : Mailbox) : Bool := decide (m.mPinCount > 0)

/-- Pushing a list of messages one after the other. -/
def Mailbox.pushAll (m : Mailbox) (xs : List Nat) : Mailbox :=
  xs.foldl Mailbox.Push m

/-- Popping `fuel` times, collecting the returned messages in order and
stopping early if a pop returns null. -/
def Mailbox.popList : Nat → Mailbox → List Nat
  | 0, _ => []
  | fuel + 1, m =>
    match m.Pop with
    | (none, _) => []
    | (some x, m2) => x :: Mailbox.popList fuel m2

/--
The free-block pool of the pool allocator header (`Pool<LockType>`).
The `mLock` member is a concurrency primitive with no sequential content
and is omitted.  The intrusive list threaded through the blocks
(`mHead.mNext`, `Node::mNext`) is embedded as the list of the block
addresses in list order, head first; block addresses are natural numbers
standing for the pointer values.
-/
structure Pool where
  blocks : List Nat
  mBlockCount : Nat
deriving DecidableEq

/-- `Pool::MAX_BLOCKS`: maximum number of memory blocks stored per pool. -/
def Pool.MAX_BLOCKS : Nat := 16

/-- The constructor `Pool::Pool()`: empty list, zero count. -/
def Pool.mk0 : Pool := { blocks := [], mBlockCount := 0 }

/-- `Pool::Empty`: `mBlockCount == 0`. -/
def Pool.Empty (p : Pool) : Bool := p.mBlockCount == 0

/-- `Pool::Add`: if `mBlockCount < MAX_BLOCKS`, link the block in at the
head, `++mBlockCount`, and return true; otherwise return false leaving the
pool unchanged. -/
def Pool.Add (p : Pool) (memory : Nat) : Bool × Pool :=
  if p.mBlockCount < Pool.MAX_BLOCKS then
    (true, { blocks := memory :: p.blocks, mBlockCount := u32inc p.mBlockCount })
  else
    (false, p)

/-- The alignment mask `alignment - 1` computed by `Pool::FetchAligned`
(a `uint32_t` subtraction). -/
def alignMask (alignment : Nat) : Nat := u32dec alignment

/-- The scan loop of `Pool::FetchAligned`: walk the list, unlink and
return the first node whose address ANDed with the mask is zero, or
return nothing if no node qualifies.  The returned list is the list with
that node removed, order preserved. -/
def scanAligned (mask : Nat) : List Nat → Option (Nat × List Nat)
  | [] => none
  | b :: rest =>
    if b &&& mask == 0 then
      some (b, rest)
    else
      match scanAligned mask rest with
      | none => none
      | some (x, rest2) => some (x, b :: rest2)

/-- `Pool::FetchAligned`: scan for the first block satisfying the
alignment; on a hit unlink it and `--mBlockCount`; on a miss return null
leaving the pool unchanged. -/
def Pool.FetchAligned (p : Pool) (alignment : Nat) : Option Nat × Pool :=
  match scanAligned (alignMask alignment) p.blocks with
  | none => (none, p)
  | some (x, rest) => (some x, { blocks := rest, mBlockCount := u32dec p.mBlockCount })

/-- `Pool::Fetch`: grab the first block in the list if the list is
non-empty, `--mBlockCount`; otherwise return null. -/
def Pool.Fetch (p : Pool) : Option Nat × Pool :=
  match p.blocks with
  | [] => (none, p)
  | b :: rest => (some b, { blocks := rest, mBlockCount := u32dec p.mBlockCount })

/-- Pool states reachable from a freshly constructed pool by any sequence
of `Add`, `Fetch` and `FetchAligned` operations. -/
inductive Pool.Reachable : Pool → Prop
  | fresh : Pool.Reachable Pool.mk0
  | add (p : Pool) (b : Nat) : Pool.Reachable p → Pool.Reachable (p.Add b).2
  | fetch (p : Pool) : Pool.Reachable p → Pool.Reachable p.Fetch.2
  | fetchAligned (p : Pool) (a : Nat) :
      Pool.Reachable p → Pool.Reachable (p.FetchAligned a).2

/-- Adding a list of blocks one after the other (keeping the pool, ignoring
the boolean results). -/
def Pool.addAll (p : Pool) (bs : List Nat) : Pool :=
  bs.foldl (fun q b => (q.Add b).2) p

/-- The yield-strategy enumeration of `Framework.h`. -/
inductive YieldStrategy
  | YIELD_STRATEGY_POLITE
  | YIELD_STRATEGY_STRONG
  | YIELD_STRATEGY_AGGRESSIVE
deriving DecidableEq

/-- The `Framework::Parameters` structure of `Framework.h`. -/
structure Parameters where
  mThreadCount : Nat
  mNodeMask : Nat
  mProcessorMask : Nat
  mYieldStrategy : YieldStrategy
deriving DecidableEq

/-- The `Framework::Parameters` constructor with its default arguments
`threadCount = 16`, `nodeMask = 0x1`, `processorMask = 0xFFFFFFFF`,
`yieldStrategy = YIELD_STRATEGY_POLITE`. -/
def Parameters.ctor (threadCount : Nat := 16) (nodeMask : Nat := 0x1)
    (processorMask : Nat := 0xFFFFFFFF)
    (yieldStrategy : YieldStrategy := YieldStrategy.YIELD_STRATEGY_POLITE) :
    Parameters :=
  { mThreadCount := threadCount, mNodeMask := nodeMask,
    mProcessorMask := processorMask, mYieldStrategy := yieldStrategy }

/--
The framework state touched by the send path: the mailbox directory (an
association list from mailbox index to mailbox), the shared work queue of
ready mailbox indices, and two event logs recording, in order, the
fallback-handler invocations and the freed messages.  The logs embed the
externally observable calls `mFallbackHandlers.Handle(...)` and the
message-allocator free; they only ever grow.
-/
structure FrameworkState where
  mailboxes : List (Nat × Mailbox)
  workQueue : List Nat
  fallbackCalls : List Nat
  freedMessages : List Nat
deriving DecidableEq

/-- Replace the mailbox stored at the given index, leaving every other
entry unchanged. -/
def updateMailbox : List (Nat × Mailbox) → Nat → Mailbox → List (Nat × Mailbox)
  | [], _, _ => []
  | (k, v) :: rest, addr, mb =>
    if k = addr then (k, mb) :: rest else (k, v) :: updateMailbox rest addr mb

/--
Modelled from the spec: `Detail::MessageSender::Send` (its source is not
among the provided files; `Framework::Send` forwards to it).  Spec §4.10
step 4 and §7: look up the recipient mailbox; on a directory miss
(UnknownRecipient) invoke the fallback handler, free the message and
return true; if the mailbox has `actor == null` and no pending
predecessor (an empty queue), likewise invoke the fallback, free the
message and return true; otherwise push the message and, on the
empty-to-non-empty transition, enqueue the mailbox on the work queue,
returning true.
-/
def MessageSender.Send (st : FrameworkState) (msg : Nat) (addr : Nat) :
    Bool × FrameworkState :=
  match st.mailboxes.lookup addr with
  | none =>
    (true, { st with fallbackCalls := st.fallbackCalls ++ [msg],
                     freedMessages := st.freedMessages ++ [msg] })
  | some mb =>
    if mb.mActor = none ∧ mb.mQueue = [] then
      (true, { st with fallbackCalls := st.fallbackCalls ++ [msg],
                       freedMessages := st.freedMessages ++ [msg] })
    else
      let wasEmpty := mb.Empty
      let mb2 := mb.Push msg
      (true, { st with mailboxes := updateMailbox st.mailboxes addr mb2,
                       workQueue := if wasEmpty then st.workQueue ++ [addr]
                                    else st.workQueue })

/-- `Framework::Send` of `Framework.h`: allocate a message (the outcome of
`MessageCreator::Create` is passed in as `alloc`, null being `none`); if
the allocation returned null, return false at once; otherwise hand the
message to `MessageSender::Send`. -/
def Framework.Send (st : FrameworkState) (alloc : Option Nat) (addr : Nat) :
    Bool × FrameworkState :=
  match alloc with
  | none => (false, st)
  | some msg => MessageSender.Send st msg addr

/-! ### Helper lemmas -/

theorem scanAligned_eq (mask : Nat) (l : List Nat) :
    scanAligned mask l =
      (l.find? (fun b => b &&& mask == 0)).map
        (fun x => (x, l.eraseP (fun b => b &&& mask == 0))) := by
  induction l with
  | nil => rfl
  | cons b rest ih =>
    by_cases h : (b &&& mask == 0) = true
    · simp [scanAligned, h, List.find?_cons, List.eraseP_cons]
    · have h2 : (b &&& mask == 0) = false := by simpa using h
      cases hf : rest.find? (fun x => x &&& mask == 0) with
      | none =>
        simp [scanAligned, h2, ih, hf, List.find?_cons, List.eraseP_cons]
      | some x =>
        simp [scanAligned, h2, ih, hf, List.find?_cons, List.eraseP_cons]

theorem scanAligned_length {mask : Nat} : ∀ {l rest : List Nat} {x : Nat},
    scanAligned mask l = some (x, rest) → rest.length + 1 = l.length := by
  intro l
  induction l with
  | nil => intro rest x h; simp [scanAligned] at h
  | cons b tl ih =>
    intro rest x h
    by_cases hb : (b &&& mask == 0) = true
    · simp only [scanAligned, if_pos hb, Option.some.injEq, Prod.mk.injEq] at h
      rw [← h.2]
      simp
    · cases hs : scanAligned mask tl with
      | none => simp [scanAligned, hb, hs] at h
      | some pr =>
        obtain ⟨x2, rest2⟩ := pr
        simp only [scanAligned] at h
        rw [if_neg hb, hs] at h
        simp only [Option.some.injEq, Prod.mk.injEq] at h
        have := ih hs
        rw [← h.2]
        simp only [List.length_cons]
        omega

/-- The central pool invariant: in every reachable pool state the stored
block count equals the length of the free list, and that length never
exceeds `MAX_BLOCKS`. -/
theorem Pool.reachable_inv {p : Pool} (h : p.Reachable) :
    p.mBlockCount = p.blocks.length ∧ p.blocks.length ≤ Pool.MAX_BLOCKS := by
  induction h with
  | fresh => simp [Pool.mk0]
  | add p b _ ih =>
    by_cases hc : p.mBlockCount < Pool.MAX_BLOCKS
    · have hinc : u32inc p.mBlockCount = p.mBlockCount + 1 := by
        apply u32inc_eq_of_lt
        have : Pool.MAX_BLOCKS < U32_LIMIT := by decide
        omega
      simp only [Pool.Add, if_pos hc]
      constructor
      · simpa [hinc] using ih.1
      · simp only [List.length_cons]
        omega
    · simpa [Pool.Add, if_neg hc] using ih
  | fetch p _ ih =>
    cases hb : p.blocks with
    | nil => simpa [Pool.Fetch, hb] using ih
    | cons x rest =>
      have hcount : p.mBlockCount = rest.length + 1 := by
        have := ih.1; rw [hb] at this; simpa using this
      have hdec : u32dec p.mBlockCount = rest.length := by
        rw [u32dec_eq_of_pos]
        · omega
        · omega
        · have hle := ih.2
          rw [hb] at hle
          have : Pool.MAX_BLOCKS < U32_LIMIT := by decide
          omega
      simp only [Pool.Fetch, hb]
      refine ⟨hdec, ?_⟩
      have hle := ih.2
      rw [hb] at hle
      simp only [List.length_cons] at hle
      omega
  | fetchAligned p a _ ih =>
    cases hs : scanAligned (alignMask a) p.blocks with
    | none => simpa [Pool.FetchAligned, hs] using ih
    | some pr =>
      obtain ⟨x, rest⟩ := pr
      have hlen : rest.length + 1 = p.blocks.length := scanAligned_length hs
      have hcount : p.mBlockCount = rest.length + 1 := by rw [ih.1, ← hlen]
      have hdec : u32dec p.mBlockCount = rest.length := by
        rw [u32dec_eq_of_pos]
        · omega
        · omega
        · have : Pool.MAX_BLOCKS < U32_LIMIT := by decide
          have := ih.2
          omega
      simp only [Pool.FetchAligned, hs]
      refine ⟨hdec, ?_⟩
      have := ih.2
      omega

/-- `addAll` preserves reachability. -/
theorem Pool.addAll_reachable {p : Pool} (bs : List Nat) (h : p.Reachable) :
    (p.addAll bs).Reachable := by
  induction bs generalizing p with
  | nil => simpa [Pool.addAll] using h
  | cons b rest ih =>
    have : (p.addAll (b :: rest)) = ((p.Add b).2).addAll rest := by
      simp [Pool.addAll]
    rw [this]
    exact ih (Pool.Reachable.add p b h)

/-- After `pushAll` the queue is the old queue with the pushed messages
appended in order. -/
theorem Mailbox.pushAll_queue (m : Mailbox) (xs : List Nat) :
    (m.pushAll xs).mQueue = m.mQueue ++ xs := by
  induction xs generalizing m with
  | nil => simp [Mailbox.pushAll]
  | cons x rest ih =>
    have : m.pushAll (x :: rest) = (m.Push x).pushAll rest := by
      simp [Mailbox.pushAll]
    rw [this, ih]
    simp [Mailbox.Push]

/-- Draining a mailbox by popping once per queued message returns exactly
the queue contents in order. -/
theorem Mailbox.popList_queue (q : List Nat) (m : Mailbox) (h : m.mQueue = q) :
    Mailbox.popList q.length m = q := by
  induction q generalizing m with
  | nil => simp [Mailbox.popList]
  | cons x rest ih =>
    simp only [List.length_cons, Mailbox.popList, Mailbox.Pop, h]
    exact congrArg (x :: ·) (ih _ rfl)

/-! ### Claim theorems -/

/-- C1, counterexample: the claimed invariant `count == 0 ⇔ queue.empty()`
does NOT hold after every mailbox operation.  Popping a freshly
constructed (empty) mailbox decrements the `uint32_t` message count
unconditionally, wrapping it to `2^32 - 1` while the queue stays empty. -/
theorem mailbox_pop_empty_invariant_cex :
    ¬ (((Mailbox.mk0.Pop).2.mMessageCount = 0) ↔ ((Mailbox.mk0.Pop).2.mQueue = [])) := by
  decide

/-- C1, amended: for a mailbox whose message count equals its queue length
and whose queue holds fewer than `2^32 - 1` messages, Push appends the
message and increments the count by one, Pop on a NON-EMPTY mailbox
removes and returns the head and decrements the count by one, and the
invariant `count == 0 ⇔ queue empty` holds after both of these
operations; Pop on an empty mailbox still returns null (but wraps the
count, breaking the invariant, as the counterexample shows). -/
theorem mailbox_invariant_amended (m : Mailbox) (msg : Nat)
    (hinv : m.mMessageCount = m.mQueue.length)
    (hlen : m.mQueue.length + 1 < U32_LIMIT) :
    ((m.Push msg).mQueue = m.mQueue ++ [msg]
      ∧ (m.Push msg).mMessageCount = m.mMessageCount + 1
      ∧ ((m.Push msg).mMessageCount = 0 ↔ (m.Push msg).mQueue = []))
    ∧ (m.mQueue ≠ [] →
        (m.Pop).1 = m.mQueue.head?
        ∧ (m.Pop).2.mQueue = m.mQueue.tail
        ∧ (m.Pop).2.mMessageCount = m.mMessageCount - 1
        ∧ ((m.Pop).2.mMessageCount = 0 ↔ (m.Pop).2.mQueue = []))
    ∧ (m.mQueue = [] → (m.Pop).1 = none) := by
  have hlim : U32_LIMIT = 4294967296 := rfl
  have hinc : u32inc m.mMessageCount = m.mMessageCount + 1 := by
    apply u32inc_eq_of_lt
    omega
  refine ⟨⟨rfl, by simp [Mailbox.Push, hinc], ?_⟩, ?_, ?_⟩
  · constructor
    · intro h0
      rw [Mailbox.Push] at h0
      simp only [hinc] at h0
      omega
    · intro h0
      rw [Mailbox.Push] at h0
      simp at h0
  · intro hne
    cases hq : m.mQueue with
    | nil => exact absurd hq hne
    | cons x rest =>
      have hcount : m.mMessageCount = rest.length + 1 := by
        rw [hinv, hq]
        simp
      rw [hq] at hlen
      simp only [List.length_cons] at hlen
      have hdec : u32dec m.mMessageCount = rest.length := by
        rw [u32dec_eq_of_pos] <;> omega
      refine ⟨?_, ?_, ?_, ?_⟩
      · simp [Mailbox.Pop, hq]
      · simp [Mailbox.Pop, hq]
      · simp only [Mailbox.Pop, hq]
        omega
      · simp only [Mailbox.Pop, hq, hdec]
        simp [List.length_eq_zero]
  · intro hq
    simp [Mailbox.Pop, hq]

/-- Witness for the amended C1 claim, at the one-message mailbox
`Mailbox.mk0.Push 4`. -/
theorem mailbox_invariant_amended_witness :
    ((Mailbox.mk0.Push 4).Pop).1 = some 4
    ∧ ((Mailbox.mk0.Push 4).Pop).2.mMessageCount = 0 := by
  have h := mailbox_invariant_amended (Mailbox.mk0.Push 4) 9 (by decide) (by decide)
  have h2 := h.2.1 (by decide)
  exact ⟨h2.1.trans (by decide), h2.2.2.1.trans (by decide)⟩

/-- C7: the mailbox is FIFO: starting from any mailbox, pushing any
sequence of messages and then popping once per queued message yields
first the previously queued messages and then the pushed messages in
exactly the order they were pushed. -/
theorem mailbox_fifo_order (m : Mailbox) (xs : List Nat) :
    Mailbox.popList (m.mQueue ++ xs).length (m.pushAll xs) = m.mQueue ++ xs := by
  apply Mailbox.popList_queue
  exact Mailbox.pushAll_queue m xs

/-- C8: a default-constructed `Framework::Parameters` record has
`mThreadCount = 16`, `mNodeMask = 0x1`, `mProcessorMask = 0xFFFFFFFF` and
`mYieldStrategy = YIELD_STRATEGY_POLITE`. -/
theorem parameters_default_values :
    (Parameters.ctor).mThreadCount = 16
    ∧ (Parameters.ctor).mNodeMask = 0x1
    ∧ (Parameters.ctor).mProcessorMask = 0xFFFFFFFF
    ∧ (Parameters.ctor).mYieldStrategy = YieldStrategy.YIELD_STRATEGY_POLITE :=
  ⟨rfl, rfl, rfl, rfl⟩

/-- C9: with pin count zero, `RegisterActor` on a mailbox with no bound
actor sets only the actor field, and `DeregisterActor` on a mailbox with
a bound actor clears only the actor field; name, queue, message count and
pin count are unchanged by both. -/
theorem mailbox_register_deregister_frame (m : Mailbox) (a : Nat) :
    (m.mPinCount = 0 → m.mActor = none →
      (m.RegisterActor a).mActor = some a
      ∧ (m.RegisterActor a).mName = m.mName
      ∧ (m.RegisterActor a).mQueue = m.mQueue
      ∧ (m.RegisterActor a).mMessageCount = m.mMessageCount
      ∧ (m.RegisterActor a).mPinCount = m.mPinCount)
    ∧ (m.mPinCount = 0 → (∃ b, m.mActor = some b) →
      m.DeregisterActor.mActor = none
      ∧ m.DeregisterActor.mName = m.mName
      ∧ m.DeregisterActor.mQueue = m.mQueue
      ∧ m.DeregisterActor.mMessageCount = m.mMessageCount
      ∧ m.DeregisterActor.mPinCount = m.mPinCount) :=
  ⟨fun _ _ => ⟨rfl, rfl, rfl, rfl, rfl⟩, fun _ _ => ⟨rfl, rfl, rfl, rfl, rfl⟩⟩

/-- Witness for C9: register on the fresh mailbox, deregister on the
mailbox so obtained. -/
theorem mailbox_register_deregister_frame_witness :
    (Mailbox.mk0.RegisterActor 3).mActor = some 3
    ∧ (Mailbox.mk0.RegisterActor 3).DeregisterActor.mActor = none := by
  refine ⟨((mailbox_register_deregister_frame Mailbox.mk0 3).1 rfl rfl).1, ?_⟩
  exact ((mailbox_register_deregister_frame (Mailbox.mk0.RegisterActor 3) 5).2 rfl
    ⟨3, rfl⟩).1

/-- C2: when the message allocation performed by `Framework::Send` returns
null, Send returns false and the framework state is untouched: no mailbox
is pushed to, no fallback handler is invoked, nothing is enqueued on the
work queue, nothing is freed. -/
theorem send_allocation_failure_no_effect (st : FrameworkState) (addr : Nat) :
    (Framework.Send st none addr).1 = false
    ∧ (Framework.Send st none addr).2 = st
    ∧ (Framework.Send st none addr).2.mailboxes = st.mailboxes
    ∧ (Framework.Send st none addr).2.workQueue = st.workQueue
    ∧ (Framework.Send st none addr).2.fallbackCalls = st.fallbackCalls
    ∧ (Framework.Send st none addr).2.freedMessages = st.freedMessages :=
  ⟨rfl, rfl, rfl, rfl, rfl, rfl⟩

/-- C3: when the allocation succeeds but the destination has no registered
recipient — the directory lookup misses, or the mailbox has no bound
actor and no pending predecessor (an empty queue) — the fallback handler
is invoked exactly once on the message, the message is freed, and
`Framework::Send` returns true (no mailbox is pushed to and nothing is
enqueued on the work queue). -/
theorem send_unknown_recipient_fallback (st : FrameworkState) (msg addr : Nat)
    (h : st.mailboxes.lookup addr = none
      ∨ ∃ mb, st.mailboxes.lookup addr = some mb
          ∧ mb.mActor = none ∧ mb.mQueue = []) :
    (Framework.Send st (some msg) addr).1 = true
    ∧ (Framework.Send st (some msg) addr).2.fallbackCalls
        = st.fallbackCalls ++ [msg]
    ∧ (Framework.Send st (some msg) addr).2.freedMessages
        = st.freedMessages ++ [msg]
    ∧ (Framework.Send st (some msg) addr).2.mailboxes = st.mailboxes
    ∧ (Framework.Send st (some msg) addr).2.workQueue = st.workQueue := by
  rcases h with hmiss | ⟨mb, hmb, hact, hq⟩
  · simp [Framework.Send, MessageSender.Send, hmiss]
  · simp [Framework.Send, MessageSender.Send, hmb, hact, hq]

/-- Witness for C3: a send into an empty directory. -/
theorem send_unknown_recipient_fallback_witness :
    (Framework.Send ⟨[], [], [], []⟩ (some 7) 2).1 = true
    ∧ (Framework.Send ⟨[], [], [], []⟩ (some 7) 2).2.fallbackCalls = [7] := by
  have h := send_unknown_recipient_fallback ⟨[], [], [], []⟩ 7 2 (Or.inl rfl)
  exact ⟨h.1, h.2.1.trans (by decide)⟩

/-- C4: in every pool state reachable from a fresh pool by `Add`, `Fetch`
and `FetchAligned` operations, the number of cached blocks never exceeds
16; `Add` prepends the block and returns true when the pool holds fewer
than 16 blocks, and returns false leaving the pool unchanged when it
already holds 16. -/
theorem pool_capacity_bound :
    (∀ p : Pool, p.Reachable → p.blocks.length ≤ 16)
    ∧ (∀ (p : Pool) (b : Nat), p.Reachable → p.blocks.length < 16 →
        (p.Add b).2.blocks = b :: p.blocks ∧ (p.Add b).1 = true)
    ∧ (∀ (p : Pool) (b : Nat), p.Reachable → p.blocks.length = 16 →
        (p.Add b).2 = p ∧ (p.Add b).1 = false) := by
  refine ⟨?_, ?_, ?_⟩
  · intro p hp
    exact (Pool.reachable_inv hp).2
  · intro p b hp hlt
    have hc : p.mBlockCount < Pool.MAX_BLOCKS := by
      rw [(Pool.reachable_inv hp).1]
      exact hlt
    simp [Pool.Add, hc]
  · intro p b hp heq
    have hc : ¬ p.mBlockCount < Pool.MAX_BLOCKS := by
      rw [(Pool.reachable_inv hp).1, heq]
      simp [Pool.MAX_BLOCKS]
    simp [Pool.Add, hc]

/-- A reachable pool filled to its capacity of 16 blocks. -/
def pool16 : Pool :=
  Pool.mk0.addAll [1, 2, 3, 4, 5, 6, 7, 8, 9, 10, 11, 12, 13, 14, 15, 16]

/-- Witness for C4: `Add` accepts a block on the fresh pool and rejects
one on a full pool. -/
theorem pool_capacity_bound_witness :
    (Pool.mk0.Add 5).1 = true ∧ (pool16.Add 99).1 = false := by
  have h1 := pool_capacity_bound.2.1 Pool.mk0 5 Pool.Reachable.fresh (by decide)
  have h2 := pool_capacity_bound.2.2 pool16 99
    (Pool.addAll_reachable _ Pool.Reachable.fresh) (by decide)
  exact ⟨h1.2, h2.2⟩

/-- C5: `FetchAligned` returns the first block in the pool's list whose
address satisfies the alignment test (`addr & (alignment - 1) == 0`),
removes exactly that block leaving the remaining blocks in their prior
order, and returns null leaving the list unchanged when no block
satisfies it. -/
theorem pool_fetchAligned_first_match (p : Pool) (alignment : Nat) :
    (p.FetchAligned alignment).1
        = p.blocks.find? (fun b => b &&& alignMask alignment == 0)
    ∧ (p.FetchAligned alignment).2.blocks
        = p.blocks.eraseP (fun b => b &&& alignMask alignment == 0) := by
  have hse := scanAligned_eq (alignMask alignment) p.blocks
  cases hf : p.blocks.find? (fun b => b &&& alignMask alignment == 0) with
  | none =>
    rw [hf] at hse
    simp only [Option.map] at hse
    have herase : p.blocks.eraseP (fun b => b &&& alignMask alignment == 0)
        = p.blocks :=
      List.eraseP_of_forall_not (List.find?_eq_none.mp hf)
    exact ⟨by simp [Pool.FetchAligned, hse], by simp [Pool.FetchAligned, hse, herase]⟩
  | some x =>
    rw [hf] at hse
    simp only [Option.map] at hse
    exact ⟨by simp [Pool.FetchAligned, hse], by simp [Pool.FetchAligned, hse]⟩

/-- C6: on a pool holding fewer than 16 blocks, `Add(b)` followed by
`Fetch()` returns `b` and restores the pool to exactly its state before
the `Add` — the free list is LIFO. -/
theorem pool_add_fetch_roundtrip (p : Pool) (b : Nat) (h : p.mBlockCount < 16) :
    ((p.Add b).2.Fetch).1 = some b ∧ ((p.Add b).2.Fetch).2 = p := by
  obtain ⟨bl, c⟩ := p
  have hc : c < Pool.MAX_BLOCKS := h
  have hlim : U32_LIMIT = 4294967296 := rfl
  have hinc : u32inc c = c + 1 := u32inc_eq_of_lt (by simp [Pool.MAX_BLOCKS] at hc; omega)
  have hdec : u32dec (c + 1) = c := by
    rw [u32dec_eq_of_pos] <;> simp [Pool.MAX_BLOCKS] at hc <;> omega
  simp [Pool.Add, hc, Pool.Fetch, hinc, hdec]

/-- Witness for C6 at the fresh pool and block 7. -/
theorem pool_add_fetch_roundtrip_witness :
    ((Pool.mk0.Add 7).2.Fetch).1 = some 7
    ∧ ((Pool.mk0.Add 7).2.Fetch).2 = Pool.mk0 :=
  pool_add_fetch_roundtrip Pool.mk0 7 (by decide)

/-- C10: in every pool state reachable from a fresh pool, the stored block
count equals the number of nodes in the free list, `Empty()` returns true
exactly when the pool holds no blocks, and `Fetch` returns null exactly
when `Empty()` is true. -/
theorem pool_count_empty_sync :
    (∀ p : Pool, p.Reachable → p.mBlockCount = p.blocks.length)
    ∧ (∀ p : Pool, p.Reachable → (p.Empty = true ↔ p.blocks = []))
    ∧ (∀ p : Pool, p.Reachable → (p.Fetch.1 = none ↔ p.Empty = true)) := by
  have hempty : ∀ p : Pool, p.Reachable → (p.Empty = true ↔ p.blocks = []) := by
    intro p hp
    rw [Pool.Empty, beq_iff_eq, (Pool.reachable_inv hp).1]
    simp [List.length_eq_zero]
  have hfetch : ∀ p : Pool, p.Fetch.1 = none ↔ p.blocks = [] := by
    intro p
    cases hb : p.blocks with
    | nil => simp [Pool.Fetch, hb]
    | cons x rest => simp [Pool.Fetch, hb]
  refine ⟨fun p hp => (Pool.reachable_inv hp).1, hempty, ?_⟩
  intro p hp
  rw [hfetch p, hempty p hp]

/-- Witness for C10 at the fresh pool. -/
theorem pool_count_empty_sync_witness :
    Pool.mk0.mBlockCount = Pool.mk0.blocks.length
    ∧ (Pool.mk0.Empty = true ↔ Pool.mk0.blocks = []) :=
  ⟨pool_count_empty_sync.1 Pool.mk0 Pool.Reachable.fresh,
   pool_count_empty_sync.2.1 Pool.mk0 Pool.Reachable.fresh⟩
